import Mathlib

/-!
Shallow embedding of the route-simulation engine (src/main.cpp).

Modelling conventions:
* `Amount` (C++ `double`) is modelled as the exact rationals `ℚ`; the program
  only adds, subtracts, multiplies, takes `min` and compares amounts, and every
  constant in the configuration is an exact decimal, so the algebraic structure
  of the engine is captured exactly.
* `Ticks` (C++ `uint64_t`) is modelled as `ℕ`: tick counts only ever decrease
  towards zero, so no wrap-around can occur.
* The engine's `std::cout` diagnostics are modelled by the `Outcome` type: each
  distinct log message of the action-execution loop corresponds to one
  constructor, so "reported distinctly" becomes a statement about `Outcome`.
* `std::vector` becomes `List`; in-place mutation through the `pSource` /
  `pDestination` pointers becomes `List.set` at the resolved indices.
-/

set_option maxRecDepth 8000

namespace RouteSim

abbrev Amount := ℚ
abbrev Ticks := ℕ

/-- `struct ChainParams` (main.cpp lines 8-16). -/
structure ChainParams where
  orderflowRegenPerTick : Amount
  outflowRegenPerTick : Amount
  gasCost : Amount
  executionSurplus : Amount
  bridgingTime : Ticks
  inventoryLockTime : Ticks
deriving DecidableEq, Repr

/-- `struct Chain` (main.cpp lines 18-50).  `balance` is the strategy balance
the engine actually reads and writes; `currentStrategyBal` and
`maxStrategyBal` are carried along exactly as in the source, where they are
written at construction and never touched again. -/
structure Chain where
  chainName : String
  currentOrderflowBal : Amount
  currentOutflowBal : Amount
  currentStrategyBal : Amount
  maxOrderflowBal : Amount
  maxOutflowBal : Amount
  maxStrategyBal : Amount
  params : ChainParams
  balance : Amount
  lockedBalances : List (Amount × Ticks)
deriving DecidableEq, Repr

/-- The `Chain` constructor (main.cpp lines 20-35): the three `max*` fields are
fixed at construction as `1.5 ×` the corresponding initial balance. -/
def mkChain (name : String) (rp : ChainParams)
    (initialOrderflowBal initialOutflowBal startingStrategyBal : Amount) : Chain :=
  { chainName := name
    currentOrderflowBal := initialOrderflowBal
    currentOutflowBal := initialOutflowBal
    currentStrategyBal := startingStrategyBal
    maxOrderflowBal := initialOrderflowBal * 1.5
    maxOutflowBal := initialOutflowBal * 1.5
    maxStrategyBal := startingStrategyBal * 1.5
    params := rp
    balance := startingStrategyBal
    lockedBalances := [] }

/-- `enum Action::type` (main.cpp lines 56-60). -/
inductive ActionType
  | bridge
  | execute
deriving DecidableEq, Repr

/-- `struct Action` (main.cpp lines 54-65). -/
structure Action where
  type : ActionType
  source : String
  destination : String
  amount : Amount
deriving DecidableEq, Repr

/-- One constructor per distinct log line of the action-execution loop in
`Simulation::tick` (main.cpp lines 202-292): the five failure messages (the
two kind-specific checks each have their own message per kind) and the two
success messages. -/
inductive Outcome
  | sameChain
  | unknownChain
  | insufficientFunds
  | bridgeInsufficientDest
  | bridgeBelowGas
  | executeInsufficientDest
  | executeBelowGas
  | bridgeOk
  | executeOk
deriving DecidableEq, Repr

/-- Pool regeneration for one chain (main.cpp lines 168-173): each pool grows
by its per-tick rate, clamped by `min` to its fixed maximum. -/
def regenChain (c : Chain) : Chain :=
  { c with
    currentOrderflowBal :=
      min (c.currentOrderflowBal + c.params.orderflowRegenPerTick) c.maxOrderflowBal
    currentOutflowBal :=
      min (c.currentOutflowBal + c.params.outflowRegenPerTick) c.maxOutflowBal }

/-- The `remove_if` pass over a chain's `lockedBalances` (main.cpp lines
175-194): each entry's countdown is decremented when positive, entries whose
countdown is (now) zero are removed, and the sum of their amounts is the
second component, which the caller credits to `balance`. -/
def ageLocked : List (Amount × Ticks) → List (Amount × Ticks) × Amount
  | [] => ([], 0)
  | (b, t) :: rest =>
    let t' := if 0 < t then t - 1 else t
    let p := ageLocked rest
    if t' = 0 then (p.1, b + p.2) else ((b, t') :: p.1, p.2)

/-- Aging of one chain's ledger, crediting released amounts to `balance`
(main.cpp lines 175-194). -/
def ageChain (c : Chain) : Chain :=
  { c with
    balance := c.balance + (ageLocked c.lockedBalances).2
    lockedBalances := (ageLocked c.lockedBalances).1 }

/-- One iteration of the chain-resolution loop body (main.cpp lines 214-224):
a chain whose name equals the action's source is recorded as source, otherwise
a chain whose name equals the destination is recorded as destination; a later
match overwrites an earlier one, exactly as the C++ loop's assignments do. -/
def resolveGo (src dst : String) :
    Option (ℕ × Chain) × Option (ℕ × Chain) → List (ℕ × Chain) →
    Option (ℕ × Chain) × Option (ℕ × Chain)
  | p, [] => p
  | p, ic :: rest =>
    resolveGo src dst
      (if ic.2.chainName = src then (some ic, p.2)
       else if ic.2.chainName = dst then (p.1, some ic) else p) rest

/-- Resolution of the action's source and destination names to (index, chain)
pairs over the engine's chain vector (main.cpp lines 210-224). -/
def resolve (chains : List Chain) (src dst : String) :
    Option (ℕ × Chain) × Option (ℕ × Chain) :=
  resolveGo src dst (none, none) chains.enum

/-- The body of the per-action loop of `Simulation::tick` (main.cpp lines
202-292), returning the updated chain vector together with the `Outcome`
matching the log line the source emits on that path.  The checks appear in
source order: same-chain, chain resolution, source solvency, then the
kind-specific destination-liquidity and gas checks; a failed check leaves the
chain vector untouched. -/
def executeActionR (chains : List Chain) (a : Action) : List Chain × Outcome :=
  if a.source = a.destination then (chains, Outcome.sameChain)
  else
    match resolve chains a.source a.destination with
    | (some (si, src), some (di, dst)) =>
      if src.balance < a.amount then (chains, Outcome.insufficientFunds)
      else
        match a.type with
        | ActionType.bridge =>
          if dst.currentOutflowBal < a.amount then (chains, Outcome.bridgeInsufficientDest)
          else if a.amount < src.params.gasCost then (chains, Outcome.bridgeBelowGas)
          else
            let bridgedAmount := a.amount - src.params.gasCost
            let dst' := { dst with
              currentOutflowBal := dst.currentOutflowBal - a.amount
              lockedBalances :=
                dst.lockedBalances ++ [(bridgedAmount, src.params.bridgingTime)] }
            let src' := { src with
              currentOutflowBal := src.currentOutflowBal + a.amount
              balance := src.balance - a.amount }
            ((chains.set di dst').set si src', Outcome.bridgeOk)
        | ActionType.execute =>
          if dst.currentOrderflowBal < a.amount then (chains, Outcome.executeInsufficientDest)
          else if a.amount < src.params.gasCost then (chains, Outcome.executeBelowGas)
          else
            let amountAfterGasCost := a.amount - src.params.gasCost
            let creditedAmount := amountAfterGasCost * src.params.executionSurplus
            let dst' := { dst with
              currentOrderflowBal := dst.currentOrderflowBal - a.amount
              lockedBalances :=
                dst.lockedBalances ++ [(creditedAmount, src.params.inventoryLockTime)] }
            let src' := { src with balance := src.balance - a.amount }
            ((chains.set di dst').set si src', Outcome.executeOk)
    | _ => (chains, Outcome.unknownChain)

/-- The state component of `executeActionR`. -/
def executeAction (chains : List Chain) (a : Action) : List Chain :=
  (executeActionR chains a).1

/-- The whole per-action loop (main.cpp lines 202-292) over a tick's action
list, threading the chain vector through the actions in order and collecting
the per-action outcomes. -/
def executeActionsR : List Chain → List Action → List Chain × List Outcome
  | chains, [] => (chains, [])
  | chains, a :: rest =>
    let p := executeActionR chains a
    let q := executeActionsR p.1 rest
    (q.1, p.2 :: q.2)

/-- The state component of `executeActionsR`. -/
def executeActions (chains : List Chain) (actions : List Action) : List Chain :=
  (executeActionsR chains actions).1

/-- The per-chain part of the first loop of `Simulation::tick` (main.cpp lines
166-195): pool regeneration followed by ledger aging for one chain. -/
def stepChain (c : Chain) : Chain :=
  ageChain (regenChain c)

/-- The state of the chain vector at the point `m_strategy->onTickRecalc` is
called (main.cpp lines 166-199): every chain has had its pools regenerated and
its ledger aged, in that order, for the current tick. -/
def strategyView (chains : List Chain) : List Chain :=
  chains.map stepChain

/-- One call of `Simulation::tick` (main.cpp lines 158-293): regenerate pools
and age ledgers for every chain, invoke the strategy once on the resulting
snapshot, then execute the proposed actions in order. -/
def tick (strat : List Chain → List Action) (chains : List Chain) : List Chain :=
  executeActions (strategyView chains) (strat (strategyView chains))

/-- `Simulation::simulate` (main.cpp lines 89-103): run `tick` for tick
counters `0, 1, ..., iterations - 1`.  The strategy may depend on the tick
counter, which subsumes the stateless example strategy of the source. -/
def simulate (strat : ℕ → List Chain → List Action) (iterations : ℕ)
    (chains : List Chain) : List Chain :=
  (List.range iterations).foldl (fun cs t => tick (strat t) cs) chains

/-- A strategy proposing no actions. -/
def nullStrategy : List Chain → List Action := fun _ => []

/-- The tick-indexed strategy proposing no actions. -/
def nullStrategyT : ℕ → List Chain → List Action := fun _ _ => []

/-- Chain "A" of `Simulation::initRoutes` (main.cpp lines 108-121). -/
def chainA : Chain :=
  mkChain "A" ⟨0.64, 0.24, 0.0001, 1.0005, 4, 4⟩ 10 30 10

/-- Chain "B" of `Simulation::initRoutes` (main.cpp lines 123-136). -/
def chainB : Chain :=
  mkChain "B" ⟨0.38, 0.4, 0.0005, 1.0003, 6, 6⟩ 30 10 0

/-- Chain "C" of `Simulation::initRoutes` (main.cpp lines 138-151). -/
def chainC : Chain :=
  mkChain "C" ⟨0.24, 0.61, 0.0008, 1.0009, 4, 8⟩ 40 30 0

/-- The chain vector built by `Simulation::initRoutes` (main.cpp lines
106-156). -/
def initChains : List Chain := [chainA, chainB, chainC]

/-- Written from the claim's words, not from the source: the validation
pipeline evaluated in the fixed order same-chain, chain-resolution,
source-solvency, destination-liquidity, gas-coverage, returning the first
failing check's distinct reason, or `none` when every check passes.  Compared
against `executeActionR` in the C5 theorem. -/
def specValidationOutcome (chains : List Chain) (a : Action) : Option Outcome :=
  if a.source = a.destination then some Outcome.sameChain
  else
    match resolve chains a.source a.destination with
    | (some (_, src), some (_, dst)) =>
      if src.balance < a.amount then some Outcome.insufficientFunds
      else
        match a.type with
        | ActionType.bridge =>
          if dst.currentOutflowBal < a.amount then some Outcome.bridgeInsufficientDest
          else if a.amount < src.params.gasCost then some Outcome.bridgeBelowGas
          else none
        | ActionType.execute =>
          if dst.currentOrderflowBal < a.amount then some Outcome.executeInsufficientDest
          else if a.amount < src.params.gasCost then some Outcome.executeBelowGas
          else none
    | _ => some Outcome.unknownChain

/-- The example bridge action `bridge A->B amount 2` (main.cpp line 338),
which is also the action of the spec's simple-bridge scenario. -/
def actAB : Action := ⟨ActionType.bridge, "A", "B", 2⟩

/-- An execute action `execute A->B amount 5` over the initial chains. -/
def actExecAB : Action := ⟨ActionType.execute, "A", "B", 5⟩

/-- The same-chain action `bridge A->A amount 1` of the spec's same-chain
scenario. -/
def actAA : Action := ⟨ActionType.bridge, "A", "A", 1⟩

/-- Chain "A" after the accepted bridge `actAB`: outflow pool up by the full
amount, strategy balance down by the amount. -/
def chainA_bridged : Chain :=
  { chainA with
    currentOutflowBal := chainA.currentOutflowBal + 2
    balance := chainA.balance - 2 }

/-- Chain "B" after the accepted bridge `actAB`: outflow pool down by the
amount, net-of-gas settlement enqueued with chain A's bridging time. -/
def chainB_bridged : Chain :=
  { chainB with
    currentOutflowBal := chainB.currentOutflowBal - 2
    lockedBalances :=
      chainB.lockedBalances ++ [(2 - chainA.params.gasCost, chainA.params.bridgingTime)] }

/-- Chain "A" after the accepted execute `actExecAB`: only the strategy
balance changes. -/
def chainA_exec : Chain :=
  { chainA with balance := chainA.balance - 5 }

/-- Chain "B" after the accepted execute `actExecAB`: orderflow pool down by
the amount, surplus-multiplied settlement enqueued with chain A's inventory
lock time. -/
def chainB_exec : Chain :=
  { chainB with
    currentOrderflowBal := chainB.currentOrderflowBal - 5
    lockedBalances := chainB.lockedBalances ++
      [((5 - chainA.params.gasCost) * chainA.params.executionSurplus,
        chainA.params.inventoryLockTime)] }

/-- Chain "B" of the spec's simple-bridge scenario: same parameters as the
engine's chain "B" but with `outflowBalance = 30` as the scenario requires. -/
def scB : Chain :=
  mkChain "B" ⟨0.38, 0.4, 0.0005, 1.0003, 6, 6⟩ 30 30 0

/-- The chain vector of the spec's simple-bridge scenario. -/
def scChains : List Chain := [chainA, scB]

/-- Scenario chain "B" after the accepted bridge `actAB`. -/
def scB_bridged : Chain :=
  { scB with
    currentOutflowBal := scB.currentOutflowBal - 2
    lockedBalances :=
      scB.lockedBalances ++ [(2 - chainA.params.gasCost, chainA.params.bridgingTime)] }

/-- A parameter set with zero gas cost, zero regeneration and zero bridging
time, used to exercise the countdown-zero and cap-overflow corners. -/
def cexParams : ChainParams := ⟨0, 0, 0, 1, 0, 0⟩

/-- Corner-case chain "X": outflow pool 2 (so its cap is 3), balance 10. -/
def cexX : Chain := mkChain "X" cexParams 0 2 10

/-- Corner-case chain "Y". -/
def cexY : Chain := mkChain "Y" cexParams 10 10 0

/-- The corner-case chain vector. -/
def cexChains : List Chain := [cexX, cexY]

/-- A bridge of 5 from "X" to "Y": accepted, enqueues a settlement with
countdown 0 on "Y" and pushes "X"'s outflow pool past its cap. -/
def cexBridge : Action := ⟨ActionType.bridge, "X", "Y", 5⟩

/-- A strategy proposing `cexBridge` at tick 0 and nothing afterwards. -/
def cexStrat : ℕ → List Chain → List Action :=
  fun t _ => if t = 0 then [cexBridge] else []

/-- Demo chain "D": strategy balance 10, zero gas. -/
def demoD : Chain := mkChain "D" ⟨0, 0, 0, 1, 0, 3⟩ 20 0 10

/-- Demo chain "E": orderflow pool 20. -/
def demoE : Chain := mkChain "E" ⟨0, 0, 0, 1, 0, 3⟩ 20 0 0

/-- The demo chain vector for within-tick sequential consistency. -/
def demoChains : List Chain := [demoD, demoE]

/-- An execute of 6 from "D" to "E": accepted once, but a second copy in the
same tick fails solvency because the first already spent 6 of D's 10. -/
def demoExec : Action := ⟨ActionType.execute, "D", "E", 6⟩

/-- Chain "A" carrying a single locked settlement `(7, 2)`. -/
def cLock2 : Chain := { chainA with lockedBalances := [(7, 2)] }

/-- Chain "A" carrying a single locked settlement `(7, 0)`. -/
def cLock0 : Chain := { chainA with lockedBalances := [(7, 0)] }

/-- Chain "X" with its outflow pool at 7, above its cap of 3 — the state left
behind by `cexBridge`. -/
def cOver : Chain := { cexX with currentOutflowBal := 7 }

/-! ## Theorems -/

/-- C1: a proposed bridge action that passes the same-chain, chain-resolution
and solvency checks and satisfies `destination.outflowBalance >= amount` and
`amount >= source.params.gasCost` performs exactly these mutations and no
others: the destination's outflow pool decreases by the amount, the source's
outflow pool increases by the full amount (not net of gas), the source's
strategy balance decreases by the amount, and `(amount - source gas cost,
source bridging time)` is appended to the destination's locked-settlement
ledger. -/
theorem C1_bridge_effects (chains : List Chain) (a : Action) (si di : ℕ)
    (src dst : Chain)
    (hk : a.type = ActionType.bridge)
    (hsd : a.source ≠ a.destination)
    (hres : resolve chains a.source a.destination = (some (si, src), some (di, dst)))
    (hsolv : a.amount ≤ src.balance)
    (hliq : a.amount ≤ dst.currentOutflowBal)
    (hgas : src.params.gasCost ≤ a.amount) :
    executeAction chains a =
      (chains.set di
        { dst with
          currentOutflowBal := dst.currentOutflowBal - a.amount
          lockedBalances := dst.lockedBalances ++
            [(a.amount - src.params.gasCost, src.params.bridgingTime)] }).set si
        { src with
          currentOutflowBal := src.currentOutflowBal + a.amount
          balance := src.balance - a.amount } := by
  simp only [executeAction, executeActionR, if_neg hsd, hres, hk,
    if_neg (not_lt.2 hsolv), if_neg (not_lt.2 hliq), if_neg (not_lt.2 hgas)]

/-- Witness for C1 at the concrete action `bridge A->B amount 2` on the
engine's initial chains. -/
theorem C1_bridge_effects_witness :
    actAB.type = ActionType.bridge ∧ actAB.source ≠ actAB.destination ∧
    resolve initChains actAB.source actAB.destination =
      (some (0, chainA), some (1, chainB)) ∧
    actAB.amount ≤ chainA.balance ∧ actAB.amount ≤ chainB.currentOutflowBal ∧
    chainA.params.gasCost ≤ actAB.amount ∧
    executeAction initChains actAB =
      (initChains.set 1 chainB_bridged).set 0 chainA_bridged :=
  ⟨rfl, by decide, rfl, by with_unfolding_all decide,
    by with_unfolding_all decide, by with_unfolding_all decide,
    C1_bridge_effects initChains actAB 0 1 chainA chainB rfl (by decide) rfl
      (by with_unfolding_all decide) (by with_unfolding_all decide)
      (by with_unfolding_all decide)⟩

/-- C2: a proposed execute action that passes the same-chain, chain-resolution
and solvency checks and satisfies `destination.orderflowBalance >= amount` and
`amount >= source.params.gasCost` performs exactly these mutations and no
others: the destination's orderflow pool decreases by the amount, the source's
strategy balance decreases by the amount, and `((amount - source gas cost) *
source execution surplus, source inventory lock time)` is appended to the
destination's ledger; gas cost, surplus and lock time all come from the source
chain's params, and neither outflow pool changes. -/
theorem C2_execute_effects (chains : List Chain) (a : Action) (si di : ℕ)
    (src dst : Chain)
    (hk : a.type = ActionType.execute)
    (hsd : a.source ≠ a.destination)
    (hres : resolve chains a.source a.destination = (some (si, src), some (di, dst)))
    (hsolv : a.amount ≤ src.balance)
    (hliq : a.amount ≤ dst.currentOrderflowBal)
    (hgas : src.params.gasCost ≤ a.amount) :
    executeAction chains a =
      (chains.set di
        { dst with
          currentOrderflowBal := dst.currentOrderflowBal - a.amount
          lockedBalances := dst.lockedBalances ++
            [((a.amount - src.params.gasCost) * src.params.executionSurplus,
              src.params.inventoryLockTime)] }).set si
        { src with balance := src.balance - a.amount } := by
  simp only [executeAction, executeActionR, if_neg hsd, hres, hk,
    if_neg (not_lt.2 hsolv), if_neg (not_lt.2 hliq), if_neg (not_lt.2 hgas)]

/-- Witness for C2 at the concrete action `execute A->B amount 5` on the
engine's initial chains. -/
theorem C2_execute_effects_witness :
    actExecAB.type = ActionType.execute ∧ actExecAB.source ≠ actExecAB.destination ∧
    resolve initChains actExecAB.source actExecAB.destination =
      (some (0, chainA), some (1, chainB)) ∧
    actExecAB.amount ≤ chainA.balance ∧
    actExecAB.amount ≤ chainB.currentOrderflowBal ∧
    chainA.params.gasCost ≤ actExecAB.amount ∧
    executeAction initChains actExecAB =
      (initChains.set 1 chainB_exec).set 0 chainA_exec :=
  ⟨rfl, by decide, rfl, by with_unfolding_all decide,
    by with_unfolding_all decide, by with_unfolding_all decide,
    C2_execute_effects initChains actExecAB 0 1 chainA chainB rfl (by decide) rfl
      (by with_unfolding_all decide) (by with_unfolding_all decide)
      (by with_unfolding_all decide)⟩

/-- C6: within a tick the phases run in the order pool regeneration, ledger
aging and release, one strategy invocation, action execution: `tick` applies
the actions to the regenerated-and-aged snapshot that is also what the
strategy is invoked on, and in that snapshot each chain's strategy balance
already includes everything `ageLocked` released from its ledger this tick, so
settlements released at tick `t` are spendable at tick `t`. -/
theorem C6_phase_order (strat : List Chain → List Action) (chains : List Chain) :
    tick strat chains =
      executeActions (strategyView chains) (strat (strategyView chains)) ∧
    ∀ (i : ℕ) (c : Chain), chains[i]? = some c →
      (strategyView chains)[i]? = some (stepChain c) ∧
      (stepChain c).balance = c.balance + (ageLocked c.lockedBalances).2 ∧
      (stepChain c).lockedBalances = (ageLocked c.lockedBalances).1 := by
  refine ⟨rfl, fun i c h => ⟨?_, rfl, rfl⟩⟩
  rw [strategyView, List.getElem?_map, h, Option.map_some']

/-- Witness for C6 at chain "A" of the initial chains. -/
theorem C6_phase_order_witness :
    (strategyView initChains)[0]? = some (stepChain chainA) ∧
    (stepChain chainA).balance = chainA.balance + (ageLocked chainA.lockedBalances).2 ∧
    (stepChain chainA).lockedBalances = (ageLocked chainA.lockedBalances).1 :=
  (C6_phase_order nullStrategy initChains).2 0 chainA rfl

/-- C7: within a tick, an accepted action's mutations are applied before the
next action is validated: executing `a₁ :: a₂ :: rest` runs `a₂` on the state
`executeActionR` left after `a₁`, and concretely, of two identical executes of
6 against a source balance of 10 the first succeeds and the second fails the
solvency check — the second observes the first's spend, not the start-of-tick
balance. -/
theorem C7_sequential (chains : List Chain) (a₁ a₂ : Action) (rest : List Action) :
    executeActionsR chains (a₁ :: a₂ :: rest) =
      ((executeActionsR (executeActionR (executeActionR chains a₁).1 a₂).1 rest).1,
        (executeActionR chains a₁).2 ::
          (executeActionR (executeActionR chains a₁).1 a₂).2 ::
            (executeActionsR (executeActionR (executeActionR chains a₁).1 a₂).1 rest).2) ∧
    (executeActionsR demoChains [demoExec, demoExec]).2 =
      [Outcome.executeOk, Outcome.insufficientFunds] :=
  ⟨rfl, by with_unfolding_all decide⟩

/-- Evaluation of `ageLocked` on a one-entry ledger: a countdown of 0 or 1 is
released now, a larger countdown just decrements. -/
theorem ageLocked_singleton (amt : Amount) (m : ℕ) :
    ageLocked [(amt, m)] = if m ≤ 1 then ([], amt) else ([(amt, m - 1)], 0) := by
  match m with
  | 0 => simp [ageLocked]
  | 1 => simp [ageLocked]
  | (k + 2) =>
    have h1 : ¬(k + 2 ≤ 1) := by omega
    have h2 : ¬(k + 2 - 1 = 0) := by omega
    simp [ageLocked, h1, h2]

/-- The regenerate-and-age step leaves the strategy balance up by exactly what
the ledger released. -/
theorem stepChain_balance (c : Chain) :
    (stepChain c).balance = c.balance + (ageLocked c.lockedBalances).2 := rfl

/-- The regenerate-and-age step replaces the ledger by its aged form. -/
theorem stepChain_locked (c : Chain) :
    (stepChain c).lockedBalances = (ageLocked c.lockedBalances).1 := rfl

/-- A tick with no proposed actions is exactly the regenerate-and-age pass. -/
theorem tick_null_singleton (c : Chain) :
    tick nullStrategy [c] = [stepChain c] := rfl

/-- Iterated empty ticks on a one-chain vector iterate the per-chain step. -/
theorem tick_null_iterate (k : ℕ) (c : Chain) :
    (tick nullStrategy)^[k] [c] = [stepChain^[k] c] := by
  induction k generalizing c with
  | zero => rfl
  | succ k ih =>
    rw [Function.iterate_succ_apply, Function.iterate_succ_apply,
      tick_null_singleton, ih]

/-- A chain with an empty ledger keeps its balance and ledger under iterated
regenerate-and-age steps. -/
theorem stepChain_iterate_nil (k : ℕ) (c : Chain) (h : c.lockedBalances = []) :
    (stepChain^[k] c).balance = c.balance ∧
    (stepChain^[k] c).lockedBalances = [] := by
  induction k generalizing c with
  | zero => exact ⟨rfl, h⟩
  | succ k ih =>
    rw [Function.iterate_succ_apply]
    have hb : (stepChain c).balance = c.balance := by
      rw [stepChain_balance, h]; simp [ageLocked]
    have hl : (stepChain c).lockedBalances = [] := by
      rw [stepChain_locked, h]; simp [ageLocked]
    obtain ⟨h1, h2⟩ := ih (stepChain c) hl
    exact ⟨h1.trans hb, h2⟩

/-- Closed form for a chain holding the single settlement `(amt, n)`: for
`k < max n 1` further empty ticks the entry is still pending with countdown
`n - k` and nothing has been credited; from `k = max n 1` on, the entry is
gone and the balance is up by exactly `amt`. -/
theorem stepChain_iterate_singleton (amt : Amount) (n k : ℕ) (c : Chain)
    (h : c.lockedBalances = [(amt, n)]) :
    (stepChain^[k] c).balance =
      (if k < max n 1 then c.balance else c.balance + amt) ∧
    (stepChain^[k] c).lockedBalances =
      (if k < max n 1 then [(amt, n - k)] else []) := by
  induction k generalizing c n with
  | zero =>
    have h0 : 0 < max n 1 := lt_of_lt_of_le Nat.zero_lt_one (le_max_right n 1)
    simp [h0, h]
  | succ k ih =>
    rw [Function.iterate_succ_apply]
    by_cases hn : n ≤ 1
    · have hb : (stepChain c).balance = c.balance + amt := by
        rw [stepChain_balance, h, ageLocked_singleton, if_pos hn]
      have hl : (stepChain c).lockedBalances = [] := by
        rw [stepChain_locked, h, ageLocked_singleton, if_pos hn]
      obtain ⟨h1, h2⟩ := stepChain_iterate_nil k (stepChain c) hl
      have hk1 : ¬(k + 1 < max n 1) := by
        rw [max_eq_right hn]; omega
      rw [if_neg hk1, if_neg hk1]
      exact ⟨h1.trans hb, h2⟩
    · have hb : (stepChain c).balance = c.balance := by
        rw [stepChain_balance, h, ageLocked_singleton, if_neg hn]; simp
      have hl : (stepChain c).lockedBalances = [(amt, n - 1)] := by
        rw [stepChain_locked, h, ageLocked_singleton, if_neg hn]
      obtain ⟨h1, h2⟩ := ih (n - 1) (stepChain c) hl
      have e1 : max (n - 1) 1 = n - 1 := max_eq_left (by omega)
      have e2 : max n 1 = n := max_eq_left (by omega)
      have hc : (k < max (n - 1) 1) ↔ (k + 1 < max n 1) := by
        rw [e1, e2]; omega
      have hs : n - 1 - k = n - (k + 1) := by omega
      refine ⟨?_, ?_⟩
      · rw [h1, hb]
        exact if_congr hc rfl rfl
      · rw [h2, hs]
        exact if_congr hc rfl rfl

/-- C3 counterexample: a bridge with bridging time 0 enqueues the settlement
`(5, 0)` on chain "Y" during tick 0, but at the end of tick 0 (which is tick
`t + n` for `n = 0`) the entry is still in the ledger and nothing has been
credited; it is only released one tick later — so a countdown-0 settlement is
not released at tick `t + n`. -/
theorem C3_release_counterexample :
    (simulate cexStrat 1 cexChains).map (fun c => (c.balance, c.lockedBalances)) =
      [(5, []), (0, [(5, 0)])] ∧
    (simulate cexStrat 2 cexChains).map (fun c => (c.balance, c.lockedBalances)) =
      [(5, []), (5, [])] := by
  refine ⟨?_, ?_⟩ <;> with_unfolding_all rfl

/-- C3 amended: for a settlement with initial countdown `n ≥ 1`, the countdown
decreases by exactly one per tick, and exactly `n` ticks later the entry is
removed and its amount credited once; at every other tick count the state
shows it was credited at no other time and never twice. -/
theorem C3_release_amended (amt : Amount) (n k : ℕ) (c : Chain)
    (hn : 1 ≤ n) (h : c.lockedBalances = [(amt, n)]) :
    ((tick nullStrategy)^[k] [c]).map (fun x => (x.balance, x.lockedBalances)) =
      [if k < n then (c.balance, [(amt, n - k)]) else (c.balance + amt, [])] := by
  rw [tick_null_iterate]
  obtain ⟨h1, h2⟩ := stepChain_iterate_singleton amt n k c h
  rw [max_eq_left hn] at h1 h2
  by_cases hk : k < n
  · simp only [List.map_cons, List.map_nil, h1, h2, if_pos hk]
  · simp only [List.map_cons, List.map_nil, h1, h2, if_neg hk]

/-- Witness for the amended C3 at the settlement `(7, 2)` after 2 ticks. -/
theorem C3_release_amended_witness :
    (1 : ℕ) ≤ 2 ∧
    ((tick nullStrategy)^[2] [cLock2]).map (fun x => (x.balance, x.lockedBalances)) =
      [if 2 < 2 then (cLock2.balance, [(7, 2 - 2)]) else (cLock2.balance + 7, [])] :=
  ⟨by decide, C3_release_amended 7 2 2 cLock2 (by decide) rfl⟩

/-- C10: a settlement enqueued with countdown `n` is credited exactly
`max n 1` ticks later: the aging pass decrements only positive countdowns
before testing for zero and runs only at the start of a tick, so a countdown
of 0 is not credited in its enqueue tick and behaves exactly like a countdown
of 1. -/
theorem C10_zero_countdown (amt : Amount) (n k : ℕ) (c : Chain)
    (h : c.lockedBalances = [(amt, n)]) :
    ((tick nullStrategy)^[k] [c]).map (fun x => (x.balance, x.lockedBalances)) =
      [if k < max n 1 then (c.balance, [(amt, n - k)]) else (c.balance + amt, [])] := by
  rw [tick_null_iterate]
  obtain ⟨h1, h2⟩ := stepChain_iterate_singleton amt n k c h
  by_cases hk : k < max n 1
  · simp only [List.map_cons, List.map_nil, h1, h2, if_pos hk]
  · simp only [List.map_cons, List.map_nil, h1, h2, if_neg hk]

/-- Witness for C10 at the settlement `(7, 0)` after 1 tick: released then,
exactly as a countdown of 1 would be. -/
theorem C10_zero_countdown_witness :
    ((tick nullStrategy)^[1] [cLock0]).map (fun x => (x.balance, x.lockedBalances)) =
      [if 1 < max 0 1 then (cLock0.balance, [(7, 0 - 1)]) else (cLock0.balance + 7, [])] :=
  C10_zero_countdown 7 0 1 cLock0 rfl

/-- A tick with no proposed actions maps the regenerate-and-age step over the
chain vector. -/
theorem tick_null_map (cs : List Chain) :
    tick nullStrategy cs = cs.map stepChain := rfl

/-- Iterated empty ticks map the iterated per-chain step over the vector. -/
theorem tick_null_iterate_all (k : ℕ) (cs : List Chain) :
    (tick nullStrategy)^[k] cs = cs.map (stepChain^[k]) := by
  induction k generalizing cs with
  | zero => simp
  | succ k ih =>
    rw [Function.iterate_succ_apply, tick_null_map, ih, List.map_map,
      ← Function.iterate_succ]

/-- C8: the spec's simple-bridge scenario: `bridge A->B amount 2` with chain A
at strategy balance 10, gas cost 0.0001 and bridging time 4, and chain B's
outflow pool at 30, is accepted; A's strategy balance becomes 8, B's ledger
gains the entry `(1.9999, 4)`, and after 4 further ticks B's strategy balance
has increased by exactly 1.9999 and the entry is gone. -/
theorem C8_bridge_scenario :
    (executeActionR scChains actAB).2 = Outcome.bridgeOk ∧
    (executeAction scChains actAB).map (fun c => (c.balance, c.lockedBalances)) =
      [(8, []), (0, [(1.9999, 4)])] ∧
    ((tick nullStrategy)^[4] (executeAction scChains actAB)).map
        (fun c => (c.balance, c.lockedBalances)) =
      [(8, []), (1.9999, [])] := by
  have h1 : executeAction scChains actAB = [chainA_bridged, scB_bridged] := by
    with_unfolding_all rfl
  refine ⟨by with_unfolding_all rfl, ?_, ?_⟩
  · rw [h1]
    with_unfolding_all rfl
  · rw [h1, tick_null_iterate_all]
    obtain ⟨a1, a2⟩ := stepChain_iterate_nil 4 chainA_bridged rfl
    have hB : scB_bridged.lockedBalances = [(2 - chainA.params.gasCost, 4)] := by
      with_unfolding_all rfl
    obtain ⟨b1, b2⟩ :=
      stepChain_iterate_singleton (2 - chainA.params.gasCost) 4 4 scB_bridged hB
    rw [if_neg (by decide : ¬ (4 < max 4 1))] at b1 b2
    simp only [List.map_cons, List.map_nil, a1, a2, b1, b2]
    with_unfolding_all rfl

/-- C4 counterexample: after the accepted bridge `cexBridge` in tick 0, chain
"X"'s outflow pool stands at 7 at the end of the tick while its configured
maximum is 3 (1.5 × its initial value 2): the pool exceeds its cap, so the
caps do not hold at every point of every run. -/
theorem C4_cap_counterexample :
    (simulate cexStrat 1 cexChains).map
        (fun c => (c.currentOutflowBal, c.maxOutflowBal)) = [(7, 3), (5, 15)] ∧
    ¬ ((7 : Amount) ≤ 3) :=
  ⟨by with_unfolding_all rfl, by norm_num⟩

/-- Anything the chain-resolution loop returns came from the scanned list or
from the starting accumulator. -/
theorem resolveGo_mem (src dst : String) (cs : List Chain) :
    ∀ (l : List (ℕ × Chain)) (p : Option (ℕ × Chain) × Option (ℕ × Chain)),
      (∀ x ∈ l, x.2 ∈ cs) →
      (∀ i x, p.1 = some (i, x) → x ∈ cs) →
      (∀ i x, p.2 = some (i, x) → x ∈ cs) →
      (∀ i x, (resolveGo src dst p l).1 = some (i, x) → x ∈ cs) ∧
      (∀ i x, (resolveGo src dst p l).2 = some (i, x) → x ∈ cs) := by
  intro l
  induction l with
  | nil => intro p _ h1 h2; exact ⟨h1, h2⟩
  | cons ic rest ih =>
    intro p hl h1 h2
    have hic : ic.2 ∈ cs := hl ic (List.mem_cons_self ic rest)
    have hrest : ∀ x ∈ rest, x.2 ∈ cs :=
      fun x hx => hl x (List.mem_cons_of_mem ic hx)
    simp only [resolveGo]
    by_cases hc1 : ic.2.chainName = src
    · rw [if_pos hc1]
      refine ih _ hrest ?_ h2
      intro i x hx
      obtain rfl : ic = (i, x) := Option.some.inj hx
      exact hic
    · rw [if_neg hc1]
      by_cases hc2 : ic.2.chainName = dst
      · rw [if_pos hc2]
        refine ih _ hrest h1 ?_
        intro i x hx
        obtain rfl : ic = (i, x) := Option.some.inj hx
        exact hic
      · rw [if_neg hc2]
        exact ih _ hrest h1 h2

/-- The chains found by name resolution are members of the chain vector. -/
theorem resolve_mem (cs : List Chain) (s d : String) (si di : ℕ) (src dst : Chain)
    (h : resolve cs s d = (some (si, src), some (di, dst))) :
    src ∈ cs ∧ dst ∈ cs := by
  have henum : ∀ x ∈ cs.enum, x.2 ∈ cs := by
    intro x hx
    exact List.mem_iff_getElem?.2 ⟨x.1, List.mem_enum_iff_getElem?.1 hx⟩
  have hnone : ∀ (i : ℕ) (x : Chain),
      (none : Option (ℕ × Chain)) = some (i, x) → x ∈ cs := fun i x hx => by cases hx
  obtain ⟨g1, g2⟩ := resolveGo_mem s d cs cs.enum (none, none) henum hnone hnone
  have hr : resolveGo s d (none, none) cs.enum = (some (si, src), some (di, dst)) := h
  exact ⟨g1 si src (by rw [hr]), g2 di dst (by rw [hr])⟩

/-- Executing one action preserves "orderflow pool within cap and nonnegative
gas cost" across the chain vector: the only orderflow mutation is the execute
branch's decrease by the accepted (hence at least gas-cost, hence nonnegative)
amount. -/
theorem executeActionR_orderflow (cs : List Chain) (a : Action)
    (h : ∀ c ∈ cs, c.currentOrderflowBal ≤ c.maxOrderflowBal ∧ 0 ≤ c.params.gasCost) :
    ∀ c ∈ (executeActionR cs a).1,
      c.currentOrderflowBal ≤ c.maxOrderflowBal ∧ 0 ≤ c.params.gasCost := by
  by_cases hsd : a.source = a.destination
  · simp only [executeActionR, if_pos hsd]; exact h
  · rcases hres : resolve cs a.source a.destination with ⟨os, od⟩
    rcases os with _ | ⟨si, src⟩
    · simp only [executeActionR, if_neg hsd, hres]; exact h
    · rcases od with _ | ⟨di, dst⟩
      · simp only [executeActionR, if_neg hsd, hres]; exact h
      · obtain ⟨hsrc, hdst⟩ := resolve_mem cs a.source a.destination si di src dst hres
        by_cases hbal : src.balance < a.amount
        · simp only [executeActionR, if_neg hsd, hres, if_pos hbal]; exact h
        · cases hty : a.type with
          | bridge =>
            by_cases hliq : dst.currentOutflowBal < a.amount
            · simp only [executeActionR, if_neg hsd, hres, if_neg hbal, hty, if_pos hliq]
              exact h
            · by_cases hgas : a.amount < src.params.gasCost
              · simp only [executeActionR, if_neg hsd, hres, if_neg hbal, hty,
                  if_neg hliq, if_pos hgas]
                exact h
              · simp only [executeActionR, if_neg hsd, hres, if_neg hbal, hty,
                  if_neg hliq, if_neg hgas]
                intro c hc
                rcases List.mem_or_eq_of_mem_set hc with hc1 | rfl
                · rcases List.mem_or_eq_of_mem_set hc1 with hc2 | rfl
                  · exact h c hc2
                  · exact h dst hdst
                · exact h src hsrc
          | execute =>
            by_cases hliq : dst.currentOrderflowBal < a.amount
            · simp only [executeActionR, if_neg hsd, hres, if_neg hbal, hty, if_pos hliq]
              exact h
            · by_cases hgas : a.amount < src.params.gasCost
              · simp only [executeActionR, if_neg hsd, hres, if_neg hbal, hty,
                  if_neg hliq, if_pos hgas]
                exact h
              · simp only [executeActionR, if_neg hsd, hres, if_neg hbal, hty,
                  if_neg hliq, if_neg hgas]
                intro c hc
                rcases List.mem_or_eq_of_mem_set hc with hc1 | rfl
                · rcases List.mem_or_eq_of_mem_set hc1 with hc2 | rfl
                  · exact h c hc2
                  · refine ⟨?_, (h dst hdst).2⟩
                    show dst.currentOrderflowBal - a.amount ≤ dst.maxOrderflowBal
                    have h0 : 0 ≤ a.amount :=
                      le_trans (h src hsrc).2 (not_lt.1 hgas)
                    exact le_trans (sub_le_self _ h0) (h dst hdst).1
                · exact h src hsrc

/-- The preservation of `executeActionR_orderflow` over a whole action list. -/
theorem executeActionsR_orderflow (actions : List Action) (cs : List Chain)
    (h : ∀ c ∈ cs, c.currentOrderflowBal ≤ c.maxOrderflowBal ∧ 0 ≤ c.params.gasCost) :
    ∀ c ∈ (executeActionsR cs actions).1,
      c.currentOrderflowBal ≤ c.maxOrderflowBal ∧ 0 ≤ c.params.gasCost := by
  induction actions generalizing cs with
  | nil => exact h
  | cons a rest ih =>
    exact ih (executeActionR cs a).1 (executeActionR_orderflow cs a h)

/-- In the snapshot the strategy observes, both pools of every chain are at or
below their caps: regeneration clamps with `min` and aging does not touch the
pools. -/
theorem strategyView_pools (cs : List Chain) :
    ∀ c ∈ strategyView cs,
      c.currentOrderflowBal ≤ c.maxOrderflowBal ∧
      c.currentOutflowBal ≤ c.maxOutflowBal := by
  intro c hc
  rcases List.mem_map.1 hc with ⟨c₀, _, rfl⟩
  exact ⟨min_le_right _ _, min_le_right _ _⟩

/-- The regenerate-and-age pass does not change any chain's parameters. -/
theorem strategyView_gas (cs : List Chain)
    (hg : ∀ c ∈ cs, 0 ≤ c.params.gasCost) :
    ∀ c ∈ strategyView cs, 0 ≤ c.params.gasCost := by
  intro c hc
  rcases List.mem_map.1 hc with ⟨c₀, hc₀, rfl⟩
  exact hg c₀ hc₀

/-- A whole tick leaves every chain's orderflow pool within its cap, given
only that gas costs are nonnegative. -/
theorem tick_orderflow (strat : List Chain → List Action) (cs : List Chain)
    (hg : ∀ c ∈ cs, 0 ≤ c.params.gasCost) :
    ∀ c ∈ tick strat cs,
      c.currentOrderflowBal ≤ c.maxOrderflowBal ∧ 0 ≤ c.params.gasCost :=
  executeActionsR_orderflow (strat (strategyView cs)) (strategyView cs)
    (fun c hc => ⟨(strategyView_pools cs c hc).1, strategyView_gas cs hg c hc⟩)

/-- Unrolling one step of the simulation loop. -/
theorem simulate_succ (strat : ℕ → List Chain → List Action) (n : ℕ)
    (cs : List Chain) :
    simulate strat (n + 1) cs = tick (strat n) (simulate strat n cs) := by
  unfold simulate
  rw [List.range_succ, List.foldl_append, List.foldl_cons, List.foldl_nil]

/-- C4 amended: over every run whose chains start with orderflow pools within
their caps and nonnegative gas costs, the orderflow pool never exceeds its cap
at any tick boundary; and at the snapshot the strategy observes each tick,
both the orderflow and the outflow pool of every chain are at or below their
caps.  (The outflow pool can transiently exceed its cap between an accepted
bridge and the next tick's regeneration, as the counterexample shows.) -/
theorem C4_cap_amended (strat : ℕ → List Chain → List Action) (n : ℕ)
    (cs : List Chain)
    (h1 : ∀ c ∈ cs, c.currentOrderflowBal ≤ c.maxOrderflowBal)
    (h2 : ∀ c ∈ cs, 0 ≤ c.params.gasCost) :
    (∀ c ∈ simulate strat n cs, c.currentOrderflowBal ≤ c.maxOrderflowBal) ∧
    ∀ (ds : List Chain), ∀ d ∈ strategyView ds,
      d.currentOrderflowBal ≤ d.maxOrderflowBal ∧
      d.currentOutflowBal ≤ d.maxOutflowBal := by
  constructor
  · have key : ∀ (m : ℕ), ∀ c ∈ simulate strat m cs,
        c.currentOrderflowBal ≤ c.maxOrderflowBal ∧ 0 ≤ c.params.gasCost := by
      intro m
      induction m with
      | zero => exact fun c hc => ⟨h1 c hc, h2 c hc⟩
      | succ m ih =>
        rw [simulate_succ]
        exact tick_orderflow (strat m) (simulate strat m cs)
          (fun c hc => (ih c hc).2)
    exact fun c hc => (key n c hc).1
  · exact fun ds d hd => strategyView_pools ds d hd

/-- Witness for the amended C4 on the engine's initial chains over 3 ticks. -/
theorem C4_cap_amended_witness :
    (∀ c ∈ simulate nullStrategyT 3 initChains,
      c.currentOrderflowBal ≤ c.maxOrderflowBal) ∧
    ∀ (ds : List Chain), ∀ d ∈ strategyView ds,
      d.currentOrderflowBal ≤ d.maxOrderflowBal ∧
      d.currentOutflowBal ≤ d.maxOutflowBal :=
  C4_cap_amended nullStrategyT 3 initChains
    (by
      intro c hc
      simp only [initChains, List.mem_cons, List.not_mem_nil, or_false] at hc
      rcases hc with rfl | rfl | rfl <;> norm_num [chainA, chainB, chainC, mkChain])
    (by
      intro c hc
      simp only [initChains, List.mem_cons, List.not_mem_nil, or_false] at hc
      rcases hc with rfl | rfl | rfl <;> norm_num [chainA, chainB, chainC, mkChain])

/-- C9: an accepted bridge adds the full amount to the source's outflow pool
with no clamping — concretely `cexBridge` leaves chain "X" at 7 against a cap
of 3 — the next regeneration, a `min` with the cap, brings any at-or-above-cap
pool back to exactly the cap when the regeneration rate is nonnegative, and at
every snapshot the strategy observes both pools of every chain are at or below
their caps. -/
theorem C9_transient_cap (c : Chain)
    (hr : 0 ≤ c.params.outflowRegenPerTick)
    (hov : c.maxOutflowBal ≤ c.currentOutflowBal) :
    (regenChain c).currentOutflowBal = c.maxOutflowBal ∧
    (executeAction cexChains cexBridge).map
        (fun x => (x.currentOutflowBal, x.maxOutflowBal)) = [(7, 3), (5, 15)] ∧
    ∀ (ds : List Chain), ∀ d ∈ strategyView ds,
      d.currentOrderflowBal ≤ d.maxOrderflowBal ∧
      d.currentOutflowBal ≤ d.maxOutflowBal := by
  refine ⟨?_, by with_unfolding_all rfl, fun ds d hd => strategyView_pools ds d hd⟩
  show min (c.currentOutflowBal + c.params.outflowRegenPerTick) c.maxOutflowBal
      = c.maxOutflowBal
  exact min_eq_right (le_trans hov (le_add_of_nonneg_right hr))

/-- Witness for C9 at chain "X" with its outflow pool at 7, above its cap 3. -/
theorem C9_transient_cap_witness :
    0 ≤ cOver.params.outflowRegenPerTick ∧
    cOver.maxOutflowBal ≤ cOver.currentOutflowBal ∧
    ((regenChain cOver).currentOutflowBal = cOver.maxOutflowBal ∧
     (executeAction cexChains cexBridge).map
        (fun x => (x.currentOutflowBal, x.maxOutflowBal)) = [(7, 3), (5, 15)] ∧
     ∀ (ds : List Chain), ∀ d ∈ strategyView ds,
       d.currentOrderflowBal ≤ d.maxOrderflowBal ∧
       d.currentOutflowBal ≤ d.maxOutflowBal) :=
  ⟨by norm_num [cOver, cexX, cexParams, mkChain],
   by norm_num [cOver, cexX, cexParams, mkChain],
   C9_transient_cap cOver (by norm_num [cOver, cexX, cexParams, mkChain])
     (by norm_num [cOver, cexX, cexParams, mkChain])⟩

/-- C5: for an action failing validation, the checks are evaluated in the
fixed order same-chain, chain-resolution, source-solvency,
destination-liquidity, gas-coverage (the order `specValidationOutcome` is
written in): the engine returns exactly the first failing check's distinct
outcome and the unchanged chain vector, the remaining actions of the tick are
processed exactly as if against the original state, and replaying the same
invalid action any number of times yields the same rejection and never mutates
state. -/
theorem C5_rejection (chains : List Chain) (a : Action) (o : Outcome)
    (h : specValidationOutcome chains a = some o) :
    executeActionR chains a = (chains, o) ∧
    (∀ rest : List Action, executeActionsR chains (a :: rest) =
      ((executeActionsR chains rest).1, o :: (executeActionsR chains rest).2)) ∧
    ∀ n : ℕ, (fun cs => (executeActionR cs a).1)^[n] chains = chains := by
  have main : executeActionR chains a = (chains, o) := by
    by_cases hsd : a.source = a.destination
    · simp only [specValidationOutcome, if_pos hsd, Option.some.injEq] at h
      simp only [executeActionR, if_pos hsd, h]
    · rcases hres : resolve chains a.source a.destination with ⟨os, od⟩
      rcases os with _ | ⟨si, src⟩
      · simp only [specValidationOutcome, if_neg hsd, hres, Option.some.injEq] at h
        simp only [executeActionR, if_neg hsd, hres, h]
      · rcases od with _ | ⟨di, dst⟩
        · simp only [specValidationOutcome, if_neg hsd, hres, Option.some.injEq] at h
          simp only [executeActionR, if_neg hsd, hres, h]
        · by_cases hbal : src.balance < a.amount
          · simp only [specValidationOutcome, if_neg hsd, hres, if_pos hbal,
              Option.some.injEq] at h
            simp only [executeActionR, if_neg hsd, hres, if_pos hbal, h]
          · cases hty : a.type with
            | bridge =>
              by_cases hliq : dst.currentOutflowBal < a.amount
              · simp only [specValidationOutcome, if_neg hsd, hres, if_neg hbal, hty,
                  if_pos hliq, Option.some.injEq] at h
                simp only [executeActionR, if_neg hsd, hres, if_neg hbal, hty,
                  if_pos hliq, h]
              · by_cases hgas : a.amount < src.params.gasCost
                · simp only [specValidationOutcome, if_neg hsd, hres, if_neg hbal, hty,
                    if_neg hliq, if_pos hgas, Option.some.injEq] at h
                  simp only [executeActionR, if_neg hsd, hres, if_neg hbal, hty,
                    if_neg hliq, if_pos hgas, h]
                · simp only [specValidationOutcome, if_neg hsd, hres, if_neg hbal, hty,
                    if_neg hliq, if_neg hgas] at h
                  exact Option.noConfusion h
            | execute =>
              by_cases hliq : dst.currentOrderflowBal < a.amount
              · simp only [specValidationOutcome, if_neg hsd, hres, if_neg hbal, hty,
                  if_pos hliq, Option.some.injEq] at h
                simp only [executeActionR, if_neg hsd, hres, if_neg hbal, hty,
                  if_pos hliq, h]
              · by_cases hgas : a.amount < src.params.gasCost
                · simp only [specValidationOutcome, if_neg hsd, hres, if_neg hbal, hty,
                    if_neg hliq, if_pos hgas, Option.some.injEq] at h
                  simp only [executeActionR, if_neg hsd, hres, if_neg hbal, hty,
                    if_neg hliq, if_pos hgas, h]
                · simp only [specValidationOutcome, if_neg hsd, hres, if_neg hbal, hty,
                    if_neg hliq, if_neg hgas] at h
                  exact Option.noConfusion h
  refine ⟨main, ?_, ?_⟩
  · intro rest
    simp only [executeActionsR, main]
  · intro n
    induction n with
    | zero => rfl
    | succ n ih =>
      rw [Function.iterate_succ_apply]
      have hstep : (executeActionR chains a).1 = chains := by rw [main]
      rw [hstep]
      exact ih

/-- Witness for C5 at the same-chain action `bridge A->A amount 1`. -/
theorem C5_rejection_witness :
    specValidationOutcome initChains actAA = some Outcome.sameChain ∧
    (executeActionR initChains actAA = (initChains, Outcome.sameChain) ∧
      (∀ rest : List Action, executeActionsR initChains (actAA :: rest) =
        ((executeActionsR initChains rest).1,
          Outcome.sameChain :: (executeActionsR initChains rest).2)) ∧
      ∀ n : ℕ, (fun cs => (executeActionR cs actAA).1)^[n] initChains = initChains) :=
  ⟨rfl, C5_rejection initChains actAA Outcome.sameChain rfl⟩

end RouteSim
